import Mathlib

/-!
Verification development for the Admin-Dashboard repository.

Shallow embedding of the two source units that the claims are about:
- the payment-methods page (PaymentService.tsx): token sanitisation and
  authorization-header derivation, the list-fetch row conversion, and the
  manage / cancel / toggle / save state machine with optimistic updates;
- the dashboard card registry (makeCardDescriptors).

JavaScript strings are modelled as lists of characters, JavaScript objects as
ordered association lists (the property enumeration order of a JS object is its
insertion order for the string keys used here), and the asynchronous PATCH
requests as operations parameterised by the outcome of the request.
-/

/-! ## JavaScript values and objects -/

/-- A scalar JSON/JavaScript value, as stored in the fields of a payment
service record or an editing draft. -/
inductive JVal where
  | str (s : String)
  | boolV (b : Bool)
  | num (n : Int)
  | null
deriving DecidableEq

/-- A JavaScript object: an ordered association list of fields. -/
abbrev Obj := List (String × JVal)

/-- Property read on an object (first binding of the field wins; a real JS
object has no duplicate keys, so this is exactly property lookup). -/
def getField (o : Obj) (f : String) : Option JVal :=
  (o.find? (fun p => p.1 = f)).map (·.2)

/-- JavaScript object spread of two objects: the fields of the first, with
values overridden by the second where present, followed by the fields of the
second that the first does not have, in order. -/
def spread (a b : Obj) : Obj :=
  a.map (fun p =>
    match getField b p.1 with
    | some v => (p.1, v)
    | none => p)
  ++ b.filter (fun p => (getField a p.1).isNone)

/-- JavaScript truthiness of a possibly-absent scalar value, as used by the
double negation on data.is_active in the source. -/
def truthy : Option JVal → Bool
  | none => false
  | some (.str s) => s ≠ ""
  | some (.boolV b) => b
  | some (.num n) => n ≠ 0
  | some .null => false

/-- JavaScript record update by spread with one computed key, as in the
toggling-flag record updates of the source. -/
def recordSet (t : List (String × Bool)) (k : String) (v : Bool) :
    List (String × Bool) :=
  if (t.find? (fun p => p.1 = k)).isSome then
    t.map (fun p => if p.1 = k then (k, v) else p)
  else
    t ++ [(k, v)]

/-- Property read on a boolean record. -/
def recordGet (t : List (String × Bool)) (k : String) : Option Bool :=
  (t.find? (fun p => p.1 = k)).map (·.2)

/-! ## Token sanitisation and header derivation

Faithful model of sanitizeToken, hasScheme and buildHeaderFromRaw from
PaymentService.tsx, including the exact behaviour of the regular expressions
used there.  JavaScript strings are modelled as lists of characters. -/

abbrev JStr := List Char

/-- The characters matched by the JavaScript whitespace class (the regex
class backslash-s, which is also the set trimmed by the trim method). -/
def isJsWS (c : Char) : Bool :=
  c == ' ' || c == '\t' || c == '\n' || c == '\r' ||
  c == '\x0b' || c == '\x0c' ||
  c == ' ' || c == ' ' || ((' ' ≤ c) && (c ≤ ' ')) ||
  c == ' ' || c == ' ' || c == ' ' || c == ' ' ||
  c == '　' || c == '﻿'

/-- JavaScript line terminators, which the dot of a regex without the s flag
does not match. -/
def isLineTerm (c : Char) : Bool :=
  c == '\n' || c == '\r' || c == ' ' || c == ' '

/-- Remove leading JavaScript whitespace. -/
def trimLeft (s : JStr) : JStr := s.dropWhile isJsWS

/-- Remove trailing JavaScript whitespace. -/
def trimRight (s : JStr) : JStr := (s.reverse.dropWhile isJsWS).reverse

/-- The JavaScript trim method. -/
def jsTrim (s : JStr) : JStr := trimRight (trimLeft s)

/-- The replace call of sanitizeToken: the anchored regex quote-dot-star-quote
replaced by the captured group.  It matches exactly when the string has length
at least two, starts and ends with a double quote, and the interior contains
no line terminator (the regex dot does not match line terminators). -/
def stripQuotes (s : JStr) : JStr :=
  if 2 ≤ s.length ∧ s.head? = some '"' ∧ s.getLast? = some '"' ∧
      (∀ c ∈ (s.drop 1).dropLast, isLineTerm c = false) then
    (s.drop 1).dropLast
  else s

/-- sanitizeToken from the source: null for a falsy raw value (JavaScript
treats the empty string as falsy), otherwise strip one layer of surrounding
quotes and trim surrounding whitespace. -/
def sanitizeToken (raw : Option JStr) : Option JStr :=
  match raw with
  | none => none
  | some s => if s = [] then none else some (jsTrim (stripQuotes s))

/-- One scheme-word test of hasScheme: the anchored case-insensitive regex
word-backslash-s-plus.  The pattern is given in lower case; a character of the
input matches a pattern letter when its ASCII lower-casing equals it. -/
def hasSchemeAux : JStr → JStr → Bool
  | [], c :: _ => isJsWS c
  | [], [] => false
  | _ :: _, [] => false
  | p :: ps, c :: cs => (c.toLower == p) && hasSchemeAux ps cs

/-- hasScheme from the source: the token starts with Bearer or Token followed
by at least one whitespace character, case-insensitively. -/
def hasScheme (t : JStr) : Bool :=
  hasSchemeAux ['b', 'e', 'a', 'r', 'e', 'r'] t ||
  hasSchemeAux ['t', 'o', 'k', 'e', 'n'] t

/-- The two possible preferred schemes of the source. -/
inductive Scheme where
  | token
  | bearer
deriving DecidableEq

/-- The scheme word as a string. -/
def schemeWord : Scheme → JStr
  | .token => ['T', 'o', 'k', 'e', 'n']
  | .bearer => ['B', 'e', 'a', 'r', 'e', 'r']

/-- PREFERRED_SCHEME from the source. -/
def PREFERRED_SCHEME : Scheme := .token

/-- buildHeaderFromRaw from the source: a token that already carries a scheme
is used verbatim, otherwise the preferred scheme word and a space are
prepended. -/
def buildHeaderFromRaw (raw : JStr) (preferred : Scheme) : JStr :=
  if hasScheme raw then raw else schemeWord preferred ++ (' ' :: raw)

/-- The full header derivation performed by the token effect of the component:
null when no token is present (JavaScript truthiness, so also for the empty
string), otherwise sanitise and, when the sanitised token is non-empty, build
the header; a token that sanitises to the empty string also yields null. -/
def deriveAuthHeader (token : Option JStr) : Option JStr :=
  match token with
  | none => none
  | some t =>
    if t = [] then none
    else
      match sanitizeToken (some t) with
      | none => none
      | some clean =>
        if clean = [] then none
        else some (buildHeaderFromRaw clean PREFERRED_SCHEME)

/-- Case-insensitive literal match of a lower-case pattern at the start of a
string, used to state the claim text about the header derivation. -/
def startsWithCI : JStr → JStr → Bool
  | [], _ => true
  | _ :: _, [] => false
  | p :: ps, c :: cs => (c.toLower == p) && startsWithCI ps cs

/-- The header derivation exactly as the claim words it: strip one layer of
quotes and surrounding whitespace; if the cleaned token begins with the seven
characters Bearer-space or the six characters Token-space, case-insensitively,
return the cleaned token unchanged, otherwise prepend Token-space; null
exactly for a null or absent raw token.  This is the comparison definition
written from the specification text, to be measured against
deriveAuthHeader. -/
def headerSpecClaimed (raw : Option JStr) : Option JStr :=
  match raw with
  | none => none
  | some t =>
    if startsWithCI ['b', 'e', 'a', 'r', 'e', 'r', ' '] (jsTrim (stripQuotes t)) ||
        startsWithCI ['t', 'o', 'k', 'e', 'n', ' '] (jsTrim (stripQuotes t)) then
      some (jsTrim (stripQuotes t))
    else
      some (schemeWord Scheme.token ++ (' ' :: jsTrim (stripQuotes t)))

/-- The header derivation as the amended claim words it: a null raw token, a
raw token that is the empty string, and a raw token whose cleaned form is
empty all yield null; otherwise, if the cleaned token begins with the word
Bearer or the word Token followed by at least one whitespace character,
case-insensitively, the cleaned token is returned unchanged, else the result
is Token-space followed by the cleaned token. -/
def headerSpecAmended (raw : Option JStr) : Option JStr :=
  match raw with
  | none => none
  | some t =>
    if t = [] then none
    else
      if jsTrim (stripQuotes t) = [] then none
      else
        if hasScheme (jsTrim (stripQuotes t)) then some (jsTrim (stripQuotes t))
        else some (schemeWord Scheme.token ++ (' ' :: jsTrim (stripQuotes t)))

/-! ## The payment-methods page state -/

/-- ServiceRow from the source: a stable key paired with the service data. -/
structure ServiceRow where
  key : String
  data : Obj
deriving DecidableEq

/-- The local state of the payment-methods component that the manage, cancel,
toggle and save operations read and write. -/
structure PMState where
  services : List ServiceRow
  expandedKey : Option String
  editing : Option Obj
  saving : Bool
  toggling : List (String × Bool)
deriving DecidableEq

/-- The field name of the active flag. -/
def isActiveF : String := "is_active"

/-- The parsed body of a successful list fetch: the payment_services field may
be absent, and each value may be null. -/
structure FetchResp where
  payment_services : Option (List (String × Option Obj))
deriving DecidableEq

/-- The row conversion of the fetch effect: read payment_services defaulting
to an empty mapping, turn each entry into a row, and replace a null value by
an empty object.  The list order is the property enumeration order of the
parsed object. -/
def rowsOfResp (resp : FetchResp) : List ServiceRow :=
  (resp.payment_services.getD []).map (fun p => { key := p.1, data := p.2.getD [] })

/-- The outcome of one PATCH request, as observed by the component: a failure
(non-2xx status or a thrown error), or a success that may or may not carry an
updated record for the key in its payment_services field. -/
inductive PatchOutcome where
  | success (record : Option Obj)
  | failure
deriving DecidableEq

/-- openManage from the source: toggle the expanded key, and set the editing
draft to a copy of the row data, or to an empty object when the row is
missing.  Note that the draft is set in both directions of the toggle. -/
def openManage (key : String) (st : PMState) : PMState :=
  { st with
    expandedKey := if st.expandedKey = some key then none else some key,
    editing := some (((st.services.find? (fun s => s.key = key)).map (·.data)).getD []) }

/-- cancelEdit from the source: discard the draft and collapse the panel. -/
def cancelEdit (st : PMState) : PMState :=
  { st with editing := none, expandedKey := none }

/-- The synchronous part of toggleService before the request: optimistically
negate the active flag of the matched row and set the toggling flag. -/
def toggleOptimistic (key : String) (newVal : Bool) (st : PMState) : PMState :=
  { st with
    services := st.services.map (fun s =>
      if s.key = key then { s with data := spread s.data [(isActiveF, JVal.boolV newVal)] } else s),
    toggling := recordSet st.toggling key true }

/-- The part of toggleService that runs when the request settles: on success
with an updated record, replace the row data authoritatively; on success
without one, keep the optimistic value; on failure, write the pre-toggle value
back and raise the alert.  The toggling flag is cleared in every case.  The
boolean of the result records whether the user was alerted. -/
def toggleSettle (key : String) (current : Bool) (outcome : PatchOutcome)
    (st : PMState) : PMState × Bool :=
  match outcome with
  | .success none => ({ st with toggling := recordSet st.toggling key false }, false)
  | .success (some r) =>
    ({ st with
        services := st.services.map (fun s =>
          if s.key = key then { key := key, data := r } else s),
        toggling := recordSet st.toggling key false }, false)
  | .failure =>
    ({ st with
        services := st.services.map (fun s =>
          if s.key = key then { s with data := spread s.data [(isActiveF, JVal.boolV current)] } else s),
        toggling := recordSet st.toggling key false }, true)

/-- toggleService from the source, as a function of the request outcome: a
no-op when the key matches no row, otherwise the optimistic update followed by
the settling of the request. -/
def toggleService (key : String) (outcome : PatchOutcome) (st : PMState) :
    PMState × Bool :=
  match st.services.find? (fun s => s.key = key) with
  | none => (st, false)
  | some svc =>
    toggleSettle key (truthy (getField svc.data isActiveF)) outcome
      (toggleOptimistic key (!truthy (getField svc.data isActiveF)) st)

/-- saveService from the source, as a function of the request outcome: a no-op
when no draft is active; on success with an updated record, replace the row
data with it, otherwise merge the draft into the row data, and in either
success case collapse the panel and clear the draft; on failure, leave
everything as it was and raise the alert.  The saving flag is set for the
duration of the request and is false again in every final state.  The boolean
of the result records whether the user was alerted. -/
def saveService (key : String) (outcome : PatchOutcome) (st : PMState) :
    PMState × Bool :=
  match st.editing with
  | none => (st, false)
  | some draft =>
    match outcome with
    | .success (some r) =>
      ({ st with
          services := st.services.map (fun s =>
            if s.key = key then { key := key, data := r } else s),
          expandedKey := none, editing := none, saving := false }, false)
    | .success none =>
      ({ st with
          services := st.services.map (fun s =>
            if s.key = key then { s with data := spread s.data draft } else s),
          expandedKey := none, editing := none, saving := false }, false)
    | .failure => ({ st with saving := false }, true)

/-- The displayed active state of the row with the given key: the truthiness
of its is_active field, or nothing when no row has the key. -/
def activeOf (st : PMState) (key : String) : Option Bool :=
  (st.services.find? (fun s => s.key = key)).map
    (fun s => truthy (getField s.data isActiveF))

/-- The data of the row with the given key. -/
def dataOf (st : PMState) (key : String) : Option Obj :=
  (st.services.find? (fun s => s.key = key)).map (·.data)

/-- The displayed toggling flag of a row: the truthiness of its entry in the
toggling record. -/
def togglingFlag (st : PMState) (key : String) : Bool :=
  (recordGet st.toggling key).getD false

/-- The list of row keys of a state. -/
def keysOf (st : PMState) : List String := st.services.map (·.key)

/-- The number of rows whose expansion panel is rendered. -/
def openCount (st : PMState) : Nat :=
  (st.services.filter (fun s => st.expandedKey = some s.key)).length

/-- The states reachable from a given state by any sequence of manage, cancel,
toggle and save operations, with arbitrary request outcomes. -/
inductive Reach (init : PMState) : PMState → Prop where
  | refl : Reach init init
  | manage (k : String) (st : PMState) : Reach init st → Reach init (openManage k st)
  | cancel (st : PMState) : Reach init st → Reach init (cancelEdit st)
  | toggle (k : String) (o : PatchOutcome) (st : PMState) :
      Reach init st → Reach init (toggleService k o st).1
  | save (k : String) (o : PatchOutcome) (st : PMState) :
      Reach init st → Reach init (saveService k o st).1

/-! ## The dashboard card registry -/

/-- Modelled from the spec: the DashboardData type of the card registry lives
in a SeverSide/types module that is not part of the sources; per the spec it
is a nullable object with a salesChart sequence and a recentUsers sequence,
both fields consumed through optional chaining, so both may be absent. -/
structure DashboardData where
  salesChart : Option (List Obj)
  recentUsers : Option (List Obj)

/-- The rendered output of a card, abstracting the four presentation
components together with the props each receives. -/
inductive CardUI where
  | salesChart (salesData : List Obj)
  | salesSource
  | transactions
  | recentUsersTable (users : List Obj)
deriving DecidableEq

/-- A card descriptor: id, display title and render function. -/
structure CardDescriptor where
  id : String
  title : String
  render : Option DashboardData → CardUI

/-- makeCardDescriptors from the source: the fixed mapping from card
identifiers to descriptors.  Each render function reads its own data argument
through optional chaining and replaces a missing sequence by the empty one;
the or-empty-array default keeps a present (even empty) sequence, since a
JavaScript array is always truthy. -/
def makeCardDescriptors (data : Option DashboardData) :
    List (String × CardDescriptor) :=
  [ ("card-sales",
      { id := "card-sales", title := "Sales Chart",
        render := fun data => CardUI.salesChart ((data.bind DashboardData.salesChart).getD []) }),
    ("card-sales-source",
      { id := "card-sales-source", title := "Sales Source",
        render := fun _ => CardUI.salesSource }),
    ("card-transactions",
      { id := "card-transactions", title := "Recent Payment Transactions",
        render := fun _ => CardUI.transactions }),
    ("card-recent-users",
      { id := "card-recent-users", title := "Recent Users",
        render := fun data => CardUI.recentUsersTable ((data.bind DashboardData.recentUsers).getD []) }) ]

/-! ## Concrete example states used by witnesses and counterexamples -/

/-- A one-row state whose row is expanded with a draft, for the manage-toggle
claims. -/
def stC1ex : PMState :=
  { services := [{ key := "cod", data := [("url", JVal.str "u")] }],
    expandedKey := some "cod",
    editing := some [("url", JVal.str "u")],
    saving := false, toggling := [] }

/-- A one-row state with an inactive row, for the toggle claims. -/
def stC4ex : PMState :=
  { services := [{ key := "cod", data := [("is_active", JVal.boolV false)] }],
    expandedKey := none, editing := none, saving := false, toggling := [] }

/-- The stored row data of the save example. -/
def oldC5ex : Obj := [("url", JVal.str "https://old"), ("name", JVal.str "COD")]

/-- The draft of the save example. -/
def dC5ex : Obj := [("url", JVal.str "https://x")]

/-- A one-row state with an expanded row and an active draft, for the save
claims. -/
def stC5ex : PMState :=
  { services := [{ key := "cod", data := oldC5ex }],
    expandedKey := some "cod", editing := some dC5ex,
    saving := false, toggling := [] }

/-- A two-row base state with distinct keys, for the expansion invariant. -/
def initC8ex : PMState :=
  { services := [{ key := "a", data := [] }, { key := "b", data := [] }],
    expandedKey := none, editing := none, saving := false, toggling := [] }

/-- A one-row state, for the frame claims about an absent key. -/
def stC10ex : PMState :=
  { services := [{ key := "a", data := [] }],
    expandedKey := none, editing := none, saving := false, toggling := [] }

/-! ## List helper lemmas -/

theorem dropWhile_head_false {α : Type} (p : α → Bool) (l : List α) (c : α)
    (cs : List α) (h : l.dropWhile p = c :: cs) : p c = false := by
  induction l with
  | nil => simp at h
  | cons a l ih =>
    by_cases ha : p a
    · rw [List.dropWhile_cons_of_pos ha] at h
      exact ih h
    · rw [List.dropWhile_cons_of_neg ha] at h
      cases h
      simpa using ha

theorem dropWhile_idem {α : Type} (p : α → Bool) (l : List α) :
    (l.dropWhile p).dropWhile p = l.dropWhile p := by
  cases h : l.dropWhile p with
  | nil => rfl
  | cons c cs =>
    have hc := dropWhile_head_false p l c cs h
    exact List.dropWhile_cons_of_neg (by simp [hc])

theorem find?_map_pres {α : Type} (l : List α) (g : α → α) (q : α → Bool)
    (hg : ∀ x, q (g x) = q x) : (l.map g).find? q = (l.find? q).map g := by
  induction l with
  | nil => rfl
  | cons a l ih =>
    by_cases ha : q a
    · rw [List.map_cons, List.find?_cons_of_pos _ (by rw [hg]; exact ha),
        List.find?_cons_of_pos _ ha, Option.map_some']
    · rw [List.map_cons, List.find?_cons_of_neg _ (by rw [hg]; simpa using ha),
        List.find?_cons_of_neg _ ha, ih]

theorem find?_filter_all {α : Type} (l : List α) (h q : α → Bool)
    (hq : ∀ x, q x = true → h x = true) :
    (l.filter h).find? q = l.find? q := by
  induction l with
  | nil => rfl
  | cons a l ih =>
    by_cases hqa : q a
    · have hha : h a = true := hq a hqa
      rw [List.filter_cons_of_pos hha, List.find?_cons_of_pos _ hqa,
        List.find?_cons_of_pos _ hqa]
    · by_cases hha : h a = true
      · rw [List.filter_cons_of_pos hha, List.find?_cons_of_neg _ hqa,
          List.find?_cons_of_neg _ hqa, ih]
      · rw [List.filter_cons_of_neg (by simpa using hha),
          List.find?_cons_of_neg _ hqa, ih]

/-! ## Object lemmas -/

theorem getField_single (f : String) (v : JVal) : getField [(f, v)] f = some v := by
  simp [getField]

theorem getField_spread_of_none (a b : Obj) (f : String)
    (h : getField b f = none) : getField (spread a b) f = getField a f := by
  have hb : b.find? (fun p => p.1 = f) = none := Option.map_eq_none'.mp h
  unfold getField spread
  rw [List.find?_append]
  rw [find?_map_pres a _ _ (fun x => by cases hx : getField b x.1 <;> simp [hx])]
  cases ha : a.find? (fun p => p.1 = f) with
  | none =>
    simp only [Option.map_none', Option.none_or]
    rw [find?_filter_all b _ _ ?hcov, hb]
    case hcov =>
      intro x hx
      have hxf : x.1 = f := of_decide_eq_true hx
      rw [hxf]
      have : getField a f = none := by
        unfold getField
        rw [ha]
        rfl
      simp [this]
    rfl
  | some pa =>
    have hq := List.find?_some ha
    have hpa : pa.1 = f := of_decide_eq_true hq
    simp only [Option.map_some', Option.or_some]
    rw [hpa, h]

theorem getField_spread_of_some (a b : Obj) (f : String) (v : JVal)
    (h : getField b f = some v) : getField (spread a b) f = some v := by
  obtain ⟨pb, hpb, hv⟩ := Option.map_eq_some'.mp h
  unfold getField spread
  rw [List.find?_append]
  rw [find?_map_pres a _ _ (fun x => by cases hx : getField b x.1 <;> simp [hx])]
  cases ha : a.find? (fun p => p.1 = f) with
  | none =>
    simp only [Option.map_none', Option.none_or]
    rw [find?_filter_all b _ _ ?hcov, hpb]
    case hcov =>
      intro x hx
      have hxf : x.1 = f := of_decide_eq_true hx
      rw [hxf]
      have : getField a f = none := by
        unfold getField
        rw [ha]
        rfl
      simp [this]
    simp [hv]
  | some pa =>
    have hq := List.find?_some ha
    have hpa : pa.1 = f := of_decide_eq_true hq
    simp only [Option.map_some', Option.or_some]
    rw [hpa, h]

theorem recordGet_recordSet (t : List (String × Bool)) (k : String) (v : Bool) :
    recordGet (recordSet t k v) k = some v := by
  unfold recordGet recordSet
  by_cases hf : (t.find? (fun p => p.1 = k)).isSome
  · rw [if_pos hf]
    rw [find?_map_pres t _ _ (fun x => by by_cases hx : x.1 = k <;> simp [hx])]
    obtain ⟨pa, hpa⟩ := Option.isSome_iff_exists.mp hf
    rw [hpa]
    have hq := List.find?_some hpa
    have hk : pa.1 = k := of_decide_eq_true hq
    simp [hk]
  · rw [if_neg hf]
    rw [List.find?_append, Option.not_isSome_iff_eq_none.mp hf]
    simp

/-! ## Trimming lemmas -/

theorem trimRight_trimRight (s : JStr) : trimRight (trimRight s) = trimRight s := by
  unfold trimRight
  rw [List.reverse_reverse, dropWhile_idem]

theorem trimRight_eq_append (s : JStr) : ∃ t, s = trimRight s ++ t := by
  refine ⟨(s.reverse.takeWhile isJsWS).reverse, ?_⟩
  unfold trimRight
  rw [← List.reverse_append, List.takeWhile_append_dropWhile, List.reverse_reverse]

theorem jsTrim_trimLeft (s : JStr) : trimLeft (jsTrim s) = jsTrim s := by
  cases h : jsTrim s with
  | nil => rfl
  | cons c cs =>
    have hc : isJsWS c = false := by
      obtain ⟨t, ht⟩ := trimRight_eq_append (trimLeft s)
      have h2 : trimLeft s = c :: (cs ++ t) := by
        have hj : jsTrim s = trimRight (trimLeft s) := rfl
        rw [← hj, h] at ht
        simpa using ht
      exact dropWhile_head_false isJsWS s c (cs ++ t) h2
    exact List.dropWhile_cons_of_neg (by simp [hc])

theorem jsTrim_trimRight (s : JStr) : trimRight (jsTrim s) = jsTrim s :=
  trimRight_trimRight (trimLeft s)

theorem trimmed_rev_head (v : JStr) (hne : v ≠ []) (hR : trimRight v = v) :
    ∃ c cs, v.reverse = c :: cs ∧ isJsWS c = false := by
  have hx : v.reverse.dropWhile isJsWS = v.reverse := by
    have hrev := congrArg List.reverse hR
    rwa [trimRight, List.reverse_reverse] at hrev
  cases hrev : v.reverse with
  | nil => exact absurd (List.reverse_eq_nil_iff.mp hrev) hne
  | cons c cs =>
    rw [hrev] at hx
    exact ⟨c, cs, rfl, dropWhile_head_false isJsWS (c :: cs) c cs hx⟩

/-! ## Scheme lemmas -/

theorem hasScheme_head (v : JStr) (h : hasScheme v = true) :
    ∃ c cs, v = c :: cs ∧ (c.toLower = 'b' ∨ c.toLower = 't') := by
  cases v with
  | nil => simp [hasScheme, hasSchemeAux] at h
  | cons c cs =>
    refine ⟨c, cs, rfl, ?_⟩
    unfold hasScheme at h
    rcases Bool.or_eq_true_iff.mp h with h1 | h1
    · left
      simp only [hasSchemeAux, Bool.and_eq_true, beq_iff_eq] at h1
      exact h1.1
    · right
      simp only [hasSchemeAux, Bool.and_eq_true, beq_iff_eq] at h1
      exact h1.1

theorem hasScheme_token_word (clean : JStr) :
    hasScheme (schemeWord Scheme.token ++ (' ' :: clean)) = true := rfl

/-- The header derivation leaves a non-empty, trimmed token that does not
start with a quote and already carries a scheme untouched. -/
theorem deriveAuthHeader_fixed (v : JStr) (hne : v ≠ [])
    (hL : trimLeft v = v) (hR : trimRight v = v)
    (hq : v.head? ≠ some '"') (hs : hasScheme v = true) :
    deriveAuthHeader (some v) = some v := by
  have hstrip : stripQuotes v = v := by
    unfold stripQuotes
    rw [if_neg]
    intro hcond
    exact hq hcond.2.1
  have htrim : jsTrim v = v := by
    unfold jsTrim
    rw [hL, hR]
  simp [deriveAuthHeader, sanitizeToken, hne, hstrip, htrim, buildHeaderFromRaw, hs]

theorem trimLeft_token_word (clean : JStr) :
    trimLeft (schemeWord Scheme.token ++ (' ' :: clean))
      = schemeWord Scheme.token ++ (' ' :: clean) := by
  show List.dropWhile isJsWS ('T' :: 'o' :: 'k' :: 'e' :: 'n' :: ' ' :: clean)
      = 'T' :: 'o' :: 'k' :: 'e' :: 'n' :: ' ' :: clean
  exact List.dropWhile_cons_of_neg (by decide)

theorem trimRight_token_word (clean : JStr) (c : Char) (cs : JStr)
    (hrev : clean.reverse = c :: cs) (hcws : isJsWS c = false) :
    trimRight (schemeWord Scheme.token ++ (' ' :: clean))
      = schemeWord Scheme.token ++ (' ' :: clean) := by
  have hXrev : (schemeWord Scheme.token ++ (' ' :: clean)).reverse
      = c :: (cs ++ [' ', 'n', 'e', 'k', 'o', 'T']) := by
    rw [List.reverse_append, List.reverse_cons, hrev]
    simp [schemeWord]
  unfold trimRight
  rw [hXrev, List.dropWhile_cons_of_neg (by simp [hcws]), ← hXrev,
    List.reverse_reverse]

/-! ## Claims about the header derivation -/

/-- Claim C2, counterexample: the derivation as worded by the claim disagrees
with the code.  First, a raw token consisting of two quote characters cleans
to the empty string, for which the code yields null while the claim prescribes
the six-character header Token-space.  Second, a cleaned token consisting of
the word Bearer, a tab and a letter carries a scheme for the code (the regex
accepts any whitespace after the word), while the claim, which demands a
literal space, would prefix it a second time. -/
theorem C2_counterexample :
    deriveAuthHeader (some ['"', '"']) ≠ headerSpecClaimed (some ['"', '"']) ∧
    deriveAuthHeader (some ['B', 'e', 'a', 'r', 'e', 'r', '\t', 'x'])
      ≠ headerSpecClaimed (some ['B', 'e', 'a', 'r', 'e', 'r', '\t', 'x']) := by
  decide

/-- Claim C2, amended: for every raw token, the header derivation of the code
equals the amended specification: null for a null raw token, for the empty
raw token and for a raw token whose quote-stripped, trimmed form is empty;
otherwise the cleaned token itself when it begins with Bearer or Token
followed by at least one whitespace character (case-insensitively), and
Token-space prepended to the cleaned token otherwise. -/
theorem C2_header_derivation (raw : Option JStr) :
    deriveAuthHeader raw = headerSpecAmended raw := by
  cases raw with
  | none => rfl
  | some t =>
    by_cases ht : t = []
    · simp [deriveAuthHeader, headerSpecAmended, ht]
    · by_cases hc : jsTrim (stripQuotes t) = [] <;>
        by_cases hs : hasScheme (jsTrim (stripQuotes t)) = true <;>
        simp [deriveAuthHeader, headerSpecAmended, sanitizeToken,
          buildHeaderFromRaw, PREFERRED_SCHEME, ht, hc, hs]

/-- Claim C3: the header derivation is idempotent.  Applying the derivation
to its own output returns that output unchanged; in particular a token that
already carries a scheme is never double-prefixed. -/
theorem C3_header_idempotent (raw : Option JStr) :
    deriveAuthHeader (deriveAuthHeader raw) = deriveAuthHeader raw := by
  cases raw with
  | none => rfl
  | some t =>
    by_cases ht : t = []
    · simp [deriveAuthHeader, ht]
    · have hder : deriveAuthHeader (some t) =
          if jsTrim (stripQuotes t) = [] then none
          else some (buildHeaderFromRaw (jsTrim (stripQuotes t)) PREFERRED_SCHEME) := by
        simp [deriveAuthHeader, sanitizeToken, ht]
      by_cases hc : jsTrim (stripQuotes t) = []
      · rw [hder, if_pos hc]
        rfl
      · rw [hder, if_neg hc]
        have hL : trimLeft (jsTrim (stripQuotes t)) = jsTrim (stripQuotes t) :=
          jsTrim_trimLeft (stripQuotes t)
        have hR : trimRight (jsTrim (stripQuotes t)) = jsTrim (stripQuotes t) :=
          jsTrim_trimRight (stripQuotes t)
        cases hs : hasScheme (jsTrim (stripQuotes t)) with
        | true =>
          have hb : buildHeaderFromRaw (jsTrim (stripQuotes t)) PREFERRED_SCHEME
              = jsTrim (stripQuotes t) := by
            unfold buildHeaderFromRaw
            rw [if_pos hs]
          rw [hb]
          obtain ⟨c, cs, hv, hct⟩ := hasScheme_head _ hs
          have hq : (jsTrim (stripQuotes t)).head? ≠ some '"' := by
            rw [hv]
            intro hcontra
            have hcq : c = '"' := by simpa using hcontra
            rw [hcq] at hct
            rcases hct with h1 | h1
            · exact absurd h1 (by decide)
            · exact absurd h1 (by decide)
          exact deriveAuthHeader_fixed _ hc hL hR hq hs
        | false =>
          have hb : buildHeaderFromRaw (jsTrim (stripQuotes t)) PREFERRED_SCHEME
              = schemeWord Scheme.token ++ (' ' :: jsTrim (stripQuotes t)) := by
            unfold buildHeaderFromRaw
            rw [if_neg (by simp [hs])]
            rfl
          rw [hb]
          obtain ⟨c, cs, hrev, hcws⟩ := trimmed_rev_head _ hc hR
          apply deriveAuthHeader_fixed
          · simp [schemeWord]
          · exact trimLeft_token_word _
          · exact trimRight_token_word _ c cs hrev hcws
          · rw [show schemeWord Scheme.token ++ (' ' :: jsTrim (stripQuotes t))
                = 'T' :: ('o' :: 'k' :: 'e' :: 'n' :: ' ' :: jsTrim (stripQuotes t)) from rfl]
            simp
          · exact hasScheme_token_word _

/-! ## State-machine helper lemmas -/

theorem find?_key_map (l : List ServiceRow) (f : ServiceRow → ServiceRow)
    (key : String) (hf : ∀ s, (f s).key = s.key) :
    (l.map f).find? (fun s => s.key = key) = (l.find? (fun s => s.key = key)).map f :=
  find?_map_pres l f _ (fun s => by simp [hf s])

theorem key_update_pres (key : String) (g : ServiceRow → Obj) (s : ServiceRow) :
    ((fun s => if s.key = key then { s with data := g s } else s) s).key = s.key := by
  by_cases h : s.key = key <;> simp [h]

theorem key_replace_pres (key : String) (r : Obj) (s : ServiceRow) :
    ((fun s => if s.key = key then { key := key, data := r } else s) s).key = s.key := by
  by_cases h : s.key = key <;> simp [h]

theorem map_key_pres (l : List ServiceRow) (f : ServiceRow → ServiceRow)
    (hf : ∀ s, (f s).key = s.key) : (l.map f).map (·.key) = l.map (·.key) := by
  rw [List.map_map]
  exact List.map_congr_left (fun a _ => hf a)

theorem toggleService_eq_of_find (k : String) (o : PatchOutcome) (st : PMState)
    (svc : ServiceRow) (hf : st.services.find? (fun s => s.key = k) = some svc) :
    toggleService k o st = toggleSettle k (truthy (getField svc.data isActiveF)) o
      (toggleOptimistic k (!truthy (getField svc.data isActiveF)) st) := by
  unfold toggleService
  rw [hf]

theorem toggleService_eq_of_none (k : String) (o : PatchOutcome) (st : PMState)
    (hf : st.services.find? (fun s => s.key = k) = none) :
    toggleService k o st = (st, false) := by
  unfold toggleService
  rw [hf]

theorem saveService_eq_of_no_draft (k : String) (o : PatchOutcome) (st : PMState)
    (hd : st.editing = none) : saveService k o st = (st, false) := by
  unfold saveService
  rw [hd]

theorem saveService_eq_failure (k : String) (st : PMState) (draft : Obj)
    (hd : st.editing = some draft) :
    saveService k PatchOutcome.failure st = ({ st with saving := false }, true) := by
  unfold saveService
  rw [hd]

theorem saveService_eq_merge (k : String) (st : PMState) (draft : Obj)
    (hd : st.editing = some draft) :
    saveService k (PatchOutcome.success none) st =
      ({ st with
          services := st.services.map (fun s =>
            if s.key = k then { s with data := spread s.data draft } else s),
          expandedKey := none, editing := none, saving := false }, false) := by
  unfold saveService
  rw [hd]

theorem saveService_eq_replace (k : String) (st : PMState) (draft r : Obj)
    (hd : st.editing = some draft) :
    saveService k (PatchOutcome.success (some r)) st =
      ({ st with
          services := st.services.map (fun s =>
            if s.key = k then { key := k, data := r } else s),
          expandedKey := none, editing := none, saving := false }, false) := by
  unfold saveService
  rw [hd]

theorem keysOf_settle (k : String) (cur : Bool) (o : PatchOutcome) (st : PMState) :
    keysOf (toggleSettle k cur o st).1 = keysOf st := by
  cases o with
  | failure =>
    simp only [toggleSettle]
    exact map_key_pres _ _ (key_update_pres k _)
  | success r =>
    cases r with
    | none => rfl
    | some rec2 =>
      simp only [toggleSettle]
      exact map_key_pres _ _ (key_replace_pres k rec2)

theorem keysOf_optimistic (k : String) (nv : Bool) (st : PMState) :
    keysOf (toggleOptimistic k nv st) = keysOf st := by
  simp only [toggleOptimistic]
  exact map_key_pres _ _ (key_update_pres k _)

theorem keysOf_toggleService (k : String) (o : PatchOutcome) (st : PMState) :
    keysOf (toggleService k o st).1 = keysOf st := by
  cases hf : st.services.find? (fun s => s.key = k) with
  | none => rw [toggleService_eq_of_none k o st hf]
  | some svc =>
    rw [toggleService_eq_of_find k o st svc hf, keysOf_settle, keysOf_optimistic]

theorem keysOf_saveService (k : String) (o : PatchOutcome) (st : PMState) :
    keysOf (saveService k o st).1 = keysOf st := by
  cases hd : st.editing with
  | none => rw [saveService_eq_of_no_draft k o st hd]
  | some draft =>
    cases o with
    | failure => rw [saveService_eq_failure k st draft hd]; rfl
    | success r =>
      cases r with
      | none =>
        rw [saveService_eq_merge k st draft hd]
        exact map_key_pres _ _ (key_update_pres k _)
      | some rec2 =>
        rw [saveService_eq_replace k st draft rec2 hd]
        exact map_key_pres _ _ (key_replace_pres k rec2)

theorem keysOf_reach {init st : PMState} (h : Reach init st) :
    keysOf st = keysOf init := by
  induction h with
  | refl => rfl
  | manage k st h ih => exact ih
  | cancel st h ih => exact ih
  | toggle k o st h ih => rw [keysOf_toggleService]; exact ih
  | save k o st h ih => rw [keysOf_saveService]; exact ih

theorem filter_expanded_nil (l : List ServiceRow) (A : String)
    (h : ∀ s ∈ l, ¬ A = s.key) :
    l.filter (fun s => decide (some A = some s.key)) = [] := by
  induction l with
  | nil => rfl
  | cons s l ih =>
    rw [List.filter_cons_of_neg (by simpa using h s (by simp))]
    exact ih (fun x hx => h x (by simp [hx]))

theorem filter_key_len (l : List ServiceRow) (A : String)
    (hnd : (l.map (·.key)).Nodup) :
    (l.filter (fun s => decide (some A = some s.key))).length ≤ 1 := by
  induction l with
  | nil => simp
  | cons s l ih =>
    rw [List.map_cons, List.nodup_cons] at hnd
    by_cases hA : A = s.key
    · rw [List.filter_cons_of_pos (by simp [hA])]
      rw [filter_expanded_nil l A ?hnone]
      case hnone =>
        intro x hx he
        have hxk : s.key = x.key := hA.symm.trans he
        rw [hxk] at hnd
        exact hnd.1 (List.mem_map_of_mem _ hx)
      simp
    · rw [List.filter_cons_of_neg (by simp [hA])]
      exact ih hnd.2

theorem openCount_le_one (st : PMState) (hnd : (keysOf st).Nodup) :
    openCount st ≤ 1 := by
  unfold openCount
  cases hek : st.expandedKey with
  | none => simp
  | some A => exact filter_key_len st.services A hnd

/-! ## Claims about the row state machine -/

/-- Claim C1, counterexample: invoking manage on the already-expanded row does
collapse the panel, but it does not clear the editing draft: the draft is set
to a fresh snapshot of the row data, so it is not absent afterwards. -/
theorem C1_counterexample :
    (openManage "cod" stC1ex).expandedKey = none ∧
    (openManage "cod" stC1ex).editing ≠ none := by
  decide

/-- Claim C1, amended: for every row key, invoking manage on the currently
expanded row collapses the panel (the expanded key becomes null), and the
editing draft is reset to a fresh snapshot of that row's current data (an
empty object when the row is missing) rather than being cleared to absent. -/
theorem C1_manage_toggle (st : PMState) (k : String) (h : st.expandedKey = some k) :
    (openManage k st).expandedKey = none ∧
    (openManage k st).editing =
      some (((st.services.find? (fun s => s.key = k)).map (·.data)).getD []) := by
  refine ⟨?_, rfl⟩
  show (if st.expandedKey = some k then none else some k) = none
  rw [if_pos h]

/-- Witness for the amended claim C1 at a concrete expanded state. -/
theorem C1_witness :
    (openManage "cod" stC1ex).expandedKey = none ∧
    (openManage "cod" stC1ex).editing =
      some (((stC1ex.services.find? (fun s => s.key = "cod")).map (·.data)).getD []) :=
  C1_manage_toggle stC1ex "cod" rfl

/-- Claim C7: for every successful list-fetch response body, the rows are read
from the payment_services field (an absent field gives the empty row list),
the conversion preserves the mapping key order entry by entry, and a null
per-key value is replaced by an empty record. -/
theorem C7_rows_preserve_order (resp : FetchResp) :
    (rowsOfResp resp).map (·.key) = (resp.payment_services.getD []).map (·.1) ∧
    (∀ i : Nat, (rowsOfResp resp)[i]? =
      ((resp.payment_services.getD [])[i]?).map
        (fun p => { key := p.1, data := p.2.getD [] })) ∧
    rowsOfResp { payment_services := none } = [] := by
  refine ⟨?_, ?_, rfl⟩
  · unfold rowsOfResp
    rw [List.map_map]
    rfl
  · intro i
    unfold rowsOfResp
    rw [List.getElem?_map]

/-- Claim C9: every card descriptor of the registry tolerates a null
dashboard-data argument: the sales card renders with an empty chart series,
the recent-users card with an empty user list, and the other two cards are
constant; the registry is a total (hence pure and error-free) function. -/
theorem C9_registry_null_tolerant (data : Option DashboardData) :
    (makeCardDescriptors data).map (fun p => p.2.render none) =
      [CardUI.salesChart [], CardUI.salesSource, CardUI.transactions,
        CardUI.recentUsersTable []] := rfl

/-- Claim C8: in every state reachable from a base state with distinct row
keys, at most one row panel is open, and expanding a row B while a different
row A is expanded makes B the expanded row (closing A's panel). -/
theorem C8_at_most_one_expanded (init st : PMState) (hr : Reach init st)
    (hnd : (keysOf init).Nodup) :
    openCount st ≤ 1 ∧
      ∀ A B : String, st.expandedKey = some A → A ≠ B →
        (openManage B st).expandedKey = some B := by
  constructor
  · exact openCount_le_one st (by rw [keysOf_reach hr]; exact hnd)
  · intro A B hA hne
    have hne2 : ¬ st.expandedKey = some B := by
      rw [hA]
      intro he
      exact hne (Option.some.inj he)
    show (if st.expandedKey = some B then none else some B) = some B
    rw [if_neg hne2]

/-- Witness for claim C8: a concrete reachable state with one panel open, and
the switch of the expansion from row a to row b. -/
theorem C8_witness :
    openCount (openManage "a" initC8ex) ≤ 1 ∧
    (openManage "b" (openManage "a" initC8ex)).expandedKey = some "b" := by
  have h := C8_at_most_one_expanded initC8ex (openManage "a" initC8ex)
    (Reach.manage "a" initC8ex Reach.refl) (by decide)
  exact ⟨h.1, h.2 "a" "b" (by decide) (by decide)⟩

theorem mem_map_of_fix {l : List ServiceRow} {s : ServiceRow}
    (f : ServiceRow → ServiceRow) (hs : s ∈ l) (hf : f s = s) : s ∈ l.map f := by
  have hm := List.mem_map_of_mem f hs
  rwa [hf] at hm

/-- Claim C4: for an existing row, toggling immediately writes the negated
displayed active value optimistically (the full operation factors through that
optimistic state); on a failed PATCH the displayed active value is back at its
pre-toggle value and the user is alerted; and after any outcome the toggling
flag of the row is false. -/
theorem C4_toggle_optimistic_rollback (st : PMState) (key : String) (b : Bool)
    (outcome : PatchOutcome) (h : activeOf st key = some b) :
    activeOf (toggleOptimistic key (!b) st) key = some (!b) ∧
    toggleService key outcome st
      = toggleSettle key b outcome (toggleOptimistic key (!b) st) ∧
    (outcome = PatchOutcome.failure →
      activeOf (toggleService key outcome st).1 key = some b ∧
      (toggleService key outcome st).2 = true) ∧
    togglingFlag (toggleService key outcome st).1 key = false := by
  obtain ⟨svc, hfind, hact⟩ := Option.map_eq_some'.mp h
  have hq := List.find?_some hfind
  have hkey : svc.key = key := of_decide_eq_true hq
  have hcomp : toggleService key outcome st
      = toggleSettle key b outcome (toggleOptimistic key (!b) st) := by
    rw [toggleService_eq_of_find key outcome st svc hfind, hact]
  have hopt : activeOf (toggleOptimistic key (!b) st) key = some (!b) := by
    unfold activeOf
    simp only [toggleOptimistic]
    rw [find?_key_map _ _ _ (key_update_pres key _), hfind]
    simp only [Option.map_some', hkey, if_pos]
    rw [getField_spread_of_some _ _ _ _ (getField_single isActiveF (JVal.boolV (!b)))]
    rfl
  have hfail : outcome = PatchOutcome.failure →
      activeOf (toggleService key outcome st).1 key = some b ∧
      (toggleService key outcome st).2 = true := by
    intro ho
    subst ho
    rw [hcomp]
    refine ⟨?_, rfl⟩
    simp only [toggleSettle, toggleOptimistic]
    unfold activeOf
    rw [find?_key_map _ _ _ (key_update_pres key _),
      find?_key_map _ _ _ (key_update_pres key _), hfind]
    simp only [Option.map_some', hkey, if_pos]
    rw [getField_spread_of_some _ _ _ _ (getField_single isActiveF (JVal.boolV b))]
    rfl
  have hflag : togglingFlag (toggleService key outcome st).1 key = false := by
    rw [hcomp]
    cases outcome with
    | failure =>
      simp only [toggleSettle, toggleOptimistic, togglingFlag]
      rw [recordGet_recordSet]
      rfl
    | success r =>
      cases r with
      | none =>
        simp only [toggleSettle, toggleOptimistic, togglingFlag]
        rw [recordGet_recordSet]
        rfl
      | some rec2 =>
        simp only [toggleSettle, toggleOptimistic, togglingFlag]
        rw [recordGet_recordSet]
        rfl
  exact ⟨hopt, hcomp, hfail, hflag⟩

/-- Witness for claim C4: a concrete inactive row toggled with a failing
request ends displayed inactive again, alerted, with a cleared toggling
flag. -/
theorem C4_witness :
    activeOf (toggleService "cod" PatchOutcome.failure stC4ex).1 "cod" = some false ∧
    (toggleService "cod" PatchOutcome.failure stC4ex).2 = true ∧
    togglingFlag (toggleService "cod" PatchOutcome.failure stC4ex).1 "cod" = false := by
  have h := C4_toggle_optimistic_rollback stC4ex "cod" false PatchOutcome.failure (by decide)
  exact ⟨(h.2.2.1 rfl).1, (h.2.2.1 rfl).2, h.2.2.2⟩

/-- Claim C5: when a draft is active and the save PATCH succeeds without an
updated record in the response, the draft is merged into the stored row data
(fields named in the draft take the draft values, every other field keeps its
stored value), the expanded panel is collapsed and the draft is cleared. -/
theorem C5_save_merge (st : PMState) (key : String) (d old : Obj)
    (h : st.editing = some d) (h2 : dataOf st key = some old) :
    dataOf (saveService key (PatchOutcome.success none) st).1 key = some (spread old d) ∧
    (∀ f : String, getField d f = none → getField (spread old d) f = getField old f) ∧
    (∀ (f : String) (v : JVal), getField d f = some v → getField (spread old d) f = some v) ∧
    (saveService key (PatchOutcome.success none) st).1.expandedKey = none ∧
    (saveService key (PatchOutcome.success none) st).1.editing = none := by
  obtain ⟨s0, hfind, hdata⟩ := Option.map_eq_some'.mp h2
  have hq := List.find?_some hfind
  have hkey : s0.key = key := of_decide_eq_true hq
  rw [saveService_eq_merge key st d h]
  refine ⟨?_, fun f hf => getField_spread_of_none old d f hf,
    fun f v hv => getField_spread_of_some old d f v hv, rfl, rfl⟩
  unfold dataOf
  rw [find?_key_map _ _ _ (key_update_pres key _), hfind]
  simp only [Option.map_some', hkey, if_pos, hdata]

/-- Witness for claim C5: saving a url-only draft over a two-field row keeps
the name field, sets the url field, collapses the panel. -/
theorem C5_witness :
    dataOf (saveService "cod" (PatchOutcome.success none) stC5ex).1 "cod"
      = some (spread oldC5ex dC5ex) ∧
    getField (spread oldC5ex dC5ex) "name" = getField oldC5ex "name" ∧
    getField (spread oldC5ex dC5ex) "url" = some (JVal.str "https://x") ∧
    (saveService "cod" (PatchOutcome.success none) stC5ex).1.expandedKey = none ∧
    (saveService "cod" (PatchOutcome.success none) stC5ex).1.editing = none := by
  have h := C5_save_merge stC5ex "cod" dC5ex oldC5ex rfl (by decide)
  exact ⟨h.1, h.2.1 "name" (by decide), h.2.2.1 "url" (JVal.str "https://x") (by decide),
    h.2.2.2.1, h.2.2.2.2⟩

/-- Claim C6: when a draft is active and the save PATCH fails, the rows, the
expanded panel and the draft are all left exactly as they were, the user is
alerted, and the saving flag is back to false. -/
theorem C6_save_failure (st : PMState) (key : String) (d : Obj)
    (h : st.editing = some d) :
    (saveService key PatchOutcome.failure st).1.services = st.services ∧
    (saveService key PatchOutcome.failure st).1.expandedKey = st.expandedKey ∧
    (saveService key PatchOutcome.failure st).1.editing = some d ∧
    (saveService key PatchOutcome.failure st).1.saving = false ∧
    (saveService key PatchOutcome.failure st).2 = true := by
  rw [saveService_eq_failure key st d h]
  exact ⟨rfl, rfl, h, rfl, rfl⟩

/-- Witness for claim C6 on the concrete save state: the panel stays on cod,
the draft survives, the alert fires. -/
theorem C6_witness :
    (saveService "cod" PatchOutcome.failure stC5ex).1.expandedKey = some "cod" ∧
    (saveService "cod" PatchOutcome.failure stC5ex).1.editing = some dC5ex ∧
    (saveService "cod" PatchOutcome.failure stC5ex).2 = true := by
  have h := C6_save_failure stC5ex "cod" dC5ex rfl
  exact ⟨h.2.1, h.2.2.1, h.2.2.2.2⟩

/-- Claim C10: every toggle and save rewrites the row list only by key-matched
element replacement: the key list (hence the key set, the order and the
length) is preserved, rows with a different key are carried over unchanged,
and a toggle on a key that matches no row leaves the state completely
unchanged and alerts nobody. -/
theorem C10_key_frame (st : PMState) (key : String) (outcome : PatchOutcome) :
    keysOf (toggleService key outcome st).1 = keysOf st ∧
    keysOf (saveService key outcome st).1 = keysOf st ∧
    (∀ s ∈ st.services, ¬ s.key = key → s ∈ (toggleService key outcome st).1.services) ∧
    (∀ s ∈ st.services, ¬ s.key = key → s ∈ (saveService key outcome st).1.services) ∧
    (st.services.find? (fun s => s.key = key) = none →
      toggleService key outcome st = (st, false)) := by
  refine ⟨keysOf_toggleService key outcome st, keysOf_saveService key outcome st,
    ?_, ?_, fun hf => toggleService_eq_of_none key outcome st hf⟩
  · intro s hs hk
    cases hf : st.services.find? (fun x => x.key = key) with
    | none =>
      rw [toggleService_eq_of_none key outcome st hf]
      exact hs
    | some svc =>
      rw [toggleService_eq_of_find key outcome st svc hf]
      cases outcome with
      | failure =>
        simp only [toggleSettle, toggleOptimistic]
        exact mem_map_of_fix _ (mem_map_of_fix _ hs (by simp [hk])) (by simp [hk])
      | success r =>
        cases r with
        | none =>
          simp only [toggleSettle, toggleOptimistic]
          exact mem_map_of_fix _ hs (by simp [hk])
        | some rec2 =>
          simp only [toggleSettle, toggleOptimistic]
          exact mem_map_of_fix _ (mem_map_of_fix _ hs (by simp [hk])) (by simp [hk])
  · intro s hs hk
    cases hd : st.editing with
    | none =>
      rw [saveService_eq_of_no_draft key outcome st hd]
      exact hs
    | some draft =>
      cases outcome with
      | failure =>
        rw [saveService_eq_failure key st draft hd]
        exact hs
      | success r =>
        cases r with
        | none =>
          rw [saveService_eq_merge key st draft hd]
          exact mem_map_of_fix _ hs (by simp [hk])
        | some rec2 =>
          rw [saveService_eq_replace key st draft rec2 hd]
          exact mem_map_of_fix _ hs (by simp [hk])

/-- Witness for claim C10 at a key that matches no row: the stored row is
carried over and the toggle is a strict no-op. -/
theorem C10_witness :
    ({ key := "a", data := [] } : ServiceRow)
      ∈ (toggleService "x" PatchOutcome.failure stC10ex).1.services ∧
    toggleService "x" PatchOutcome.failure stC10ex = (stC10ex, false) := by
  have h := C10_key_frame stC10ex "x" PatchOutcome.failure
  exact ⟨h.2.2.1 { key := "a", data := [] } (by decide) (by decide),
    h.2.2.2.2 (by decide)⟩
